import Mathlib

/-!
Shallow embedding of `topic_notifier.py` (class `TopicNotifier`): the
statistics parser `parse_ros_topic_statistics`, the configuration loader
`load_hz_range_config_from_files` and the validator
`check_topic_frequencies`, together with theorems settling the frozen
claims about them.
-/

set_option linter.unusedVariables false
set_option maxRecDepth 8000

namespace TopicNotifier

/-! ## Python float values

The program manipulates Python floats produced by `float(...)` on YAML
numbers, YAML strings and matched frequency tokens, and compares them with
`<=`.  Every concrete value involved is exactly representable, so a float
is modelled as either a finite rational or NaN.  NaN compares false
against every bound, as in IEEE-754.

Rationals are always built through `mkRat` on integer arithmetic so that
every definition evaluates by kernel reduction. -/

inductive PyFloat where
  | finite (q : ℚ)
  | nan
deriving DecidableEq

/-- Python `a <= b` on floats: false whenever either side is NaN. -/
def PyFloat.le : PyFloat → PyFloat → Bool
  | PyFloat.finite a, PyFloat.finite b => decide (a ≤ b)
  | _, _ => false

/-- Digits of a numeral, most significant first, as a natural number. -/
def natOfDigits (cs : List Char) : Nat :=
  cs.foldl (fun n c => n * 10 + (c.toNat - '0'.toNat)) 0

/-- Value of a decimal numeral with integer digits `ip` and fractional
digits `fp`, as a rational. -/
def decimalVal (ip fp : List Char) : ℚ :=
  mkRat (natOfDigits ip * 10 ^ fp.length + natOfDigits fp) (10 ^ fp.length)

/-- Core of Python `float(str)` on an unsigned decimal numeral:
digits, optionally a dot and more digits, at least one digit in all.
Mirrors what `float` accepts on the tokens this program feeds it
(`[\d.]+` matches and `hz_range` strings); no exponent forms appear. -/
def parseDecimal (cs : List Char) : Option ℚ :=
  let ip := cs.takeWhile Char.isDigit
  let r1 := cs.drop ip.length
  match r1 with
  | [] => if ip.isEmpty then none else some (decimalVal ip [])
  | '.' :: fp' =>
    let fp := fp'.takeWhile Char.isDigit
    let r2 := fp'.drop fp.length
    if r2 = [] ∧ ¬(ip = [] ∧ fp = []) then some (decimalVal ip fp)
    else none
  | _ => none

/-- Characters Python `str.strip()` (and `float`'s surrounding-whitespace
tolerance) removes: ASCII whitespace. -/
def isPySpace (c : Char) : Bool :=
  c = ' ' ∨ c = '\t' ∨ c = '\n' ∨ c = '\r' ∨ c = '\x0b' ∨ c = '\x0c'

/-- Python `str.strip()` on a character list: drop leading and trailing
whitespace. -/
def pyStripL (cs : List Char) : List Char :=
  List.rdropWhile isPySpace (cs.dropWhile isPySpace)

/-- Python `str.strip()` on a string. -/
def pyStrip (s : String) : String :=
  String.mk (pyStripL s.data)

/-- Negation of a canonical rational, without `Rat` arithmetic. -/
def ratNeg (q : ℚ) : ℚ :=
  mkRat (-q.num) q.den

/-- Python `float(s)` on a string: strips surrounding whitespace, accepts
an optional sign, a decimal numeral, or the literal `nan`; `none` models
`ValueError`. -/
def pyFloatOfString (s : String) : Option PyFloat :=
  let cs := pyStripL s.data
  match cs with
  | '+' :: rest => (parseDecimal rest).map PyFloat.finite
  | '-' :: rest => (parseDecimal rest).map (fun q => PyFloat.finite (ratNeg q))
  | _ =>
    if cs = ['n', 'a', 'n'] then some PyFloat.nan
    else (parseDecimal cs).map PyFloat.finite

/-! ## Python float-to-string (`str(float)`) for range rendering

`check_topic_frequencies` renders `f"[{min}, {max}]"`; `str` of a float
prints the shortest decimal form, `"10.0"` for integral values.  The
fractional digits are produced by long division on the canonical
numerator and denominator. -/

/-- Decimal digits of the fraction `r / den` (with `r < den`), stopping at
the exact terminating expansion; every float value this program prints has
one. -/
def fracDigitsAux : Nat → Nat → Nat → String
  | 0, _, _ => ""
  | n + 1, r, den =>
    if r = 0 then ""
    else toString (r * 10 / den) ++ fracDigitsAux n (r * 10 % den) den

/-- `str(q)` for a nonnegative rational float value. -/
def ratStr (q : ℚ) : String :=
  let ipart : Nat := q.num.toNat / q.den
  let r : Nat := q.num.toNat % q.den
  if r = 0 then toString ipart ++ ".0"
  else toString ipart ++ "." ++ fracDigitsAux 17 r q.den

/-- Python `str` of a float. -/
def pyFloatStr : PyFloat → String
  | PyFloat.nan => "nan"
  | PyFloat.finite q => if q.num < 0 then "-" ++ ratStr (ratNeg q) else ratStr q

/-! ## ANSI escape stripping

`parse_ros_topic_statistics` first removes terminal escape sequences:
the substitution of `ansi_escape_pattern` by the empty string.  `re.sub`
scans left to right; at each position it removes a match if one starts
there, otherwise keeps the character and moves on.  The sequence shape is
ESC `[`, parameter bytes `0x30`–`0x3F`, intermediate bytes `0x20`–`0x2F`,
one final byte `0x40`–`0x7E`. -/

/-- Parameter byte of a control sequence: `[0-?]`. -/
def isCsiParam (c : Char) : Bool :=
  '0' ≤ c ∧ c ≤ '?'

/-- Intermediate byte of a control sequence: space through slash. -/
def isCsiInter (c : Char) : Bool :=
  ' ' ≤ c ∧ c ≤ '/'

/-- Final byte of a control sequence: `[@-~]`. -/
def isCsiFinal (c : Char) : Bool :=
  '@' ≤ c ∧ c ≤ '~'

/-- Given the text after an ESC character, consume `[`, parameter bytes,
intermediate bytes and a final byte; `some rest` is the text after the
escape sequence, `none` means no match starts at this ESC. -/
def csiTail (cs : List Char) : Option (List Char) :=
  match cs with
  | '[' :: r1 =>
    let r2 := r1.dropWhile isCsiParam
    let r3 := r2.dropWhile isCsiInter
    match r3 with
    | f :: r4 => if isCsiFinal f then some r4 else none
    | [] => none
  | _ => none

/-- One left-to-right pass of `re.sub(ansi_escape_pattern, '', ·)`.  The
fuel argument only funds recursion; `stripAnsi` supplies enough for any
input. -/
def stripAnsiAux : Nat → List Char → List Char
  | 0, cs => cs
  | _ + 1, [] => []
  | fuel + 1, c :: rest =>
    if c = '\x1B' then
      match csiTail rest with
      | some rest' => stripAnsiAux fuel rest'
      | none => c :: stripAnsiAux fuel rest
    else c :: stripAnsiAux fuel rest

/-- `ansi_escape_pattern.sub('', ·)` on a character list. -/
def stripAnsiL (cs : List Char) : List Char :=
  stripAnsiAux cs.length cs

/-- `ansi_escape_pattern.sub('', ·)` on a string. -/
def stripAnsiStr (s : String) : String :=
  String.mk (stripAnsiL s.data)

/-! ## Statistics extraction

`parse_ros_topic_statistics` scans the cleaned text with
`finditer` of the pattern

    Statistics for topic (.+?)\n
    Message count = (\d+), Message frequency = ([\d.]+|nan)

Since `.` never matches a newline, the lazy group `(.+?)` is exactly the
nonempty run of characters up to the first newline; the greedy `(\d+)`
and `([\d.]+|nan)` groups are the maximal runs of their classes (giving
back characters cannot make the following literal match).  `finditer`
yields non-overlapping matches: after a match it resumes at its end,
after a failure it advances one character. -/

/-- Expect a literal prefix; on success return the rest of the text. -/
def dropLit : List Char → List Char → Option (List Char)
  | [], cs => some cs
  | _ :: _, [] => none
  | l :: ls, c :: cs => if c = l then dropLit ls cs else none

/-- Character class `[\d.]` of the frequency token. -/
def isFreqChar (c : Char) : Bool :=
  c.isDigit ∨ c = '.'

/-- Try to match one statistics block starting exactly here; on success
return the three captured groups and the text after the match. -/
def matchBlockAt (cs : List Char) : Option (String × String × String × List Char) :=
  match dropLit "Statistics for topic ".data cs with
  | none => none
  | some cs1 =>
    let name := cs1.takeWhile (fun c => ¬(c = '\n'))
    if name.isEmpty then none
    else
      match cs1.drop name.length with
      | '\n' :: cs3 =>
        match dropLit "Message count = ".data cs3 with
        | none => none
        | some cs4 =>
          let count := cs4.takeWhile Char.isDigit
          if count.isEmpty then none
          else
            match dropLit ", Message frequency = ".data (cs4.drop count.length) with
            | none => none
            | some cs6 =>
              let freq := cs6.takeWhile isFreqChar
              if freq.isEmpty then
                match dropLit "nan".data cs6 with
                | none => none
                | some cs7 => some (String.mk name, String.mk count, "nan", cs7)
              else
                some (String.mk name, String.mk count, String.mk freq,
                  cs6.drop freq.length)
      | _ => none

/-- `finditer` over the cleaned text: captured groups of every
non-overlapping match, in text order.  Fuel-funded; `findBlocks` supplies
enough fuel for any input. -/
def findBlocksAux : Nat → List Char → List (String × String × String)
  | 0, _ => []
  | _ + 1, [] => []
  | fuel + 1, c :: rest =>
    match matchBlockAt (c :: rest) with
    | some (g1, g2, g3, rest') => (g1, g2, g3) :: findBlocksAux fuel rest'
    | none => findBlocksAux fuel rest

/-- All block matches of the cleaned text. -/
def findBlocks (cs : List Char) : List (String × String × String) :=
  findBlocksAux cs.length cs

/-- One parsed observation, mirroring the result dictionary keys
`topic`, `message_count`, `message_frequency`. -/
structure ObservedStat where
  topic : String
  message_count : Nat
  message_frequency : PyFloat
deriving DecidableEq

/-- Build one `ObservedStat` from the captured groups: the topic is the
stripped group 1, the count is `int` of group 2, the frequency is NaN for
the literal `nan` and `float` of the token otherwise.  `none` models the
uncaught `ValueError` of `float`. -/
def buildStat (g : String × String × String) : Option ObservedStat :=
  let freq : Option PyFloat :=
    if g.2.2 = "nan" then some PyFloat.nan else pyFloatOfString g.2.2
  freq.map (fun f => ObservedStat.mk (pyStrip g.1) (natOfDigits g.2.1.data) f)

/-- The result-accumulating loop over the matches; the first failing
conversion aborts the whole call (the exception propagates). -/
def buildStats : List (String × String × String) → Option (List ObservedStat)
  | [] => some []
  | g :: rest =>
    match buildStat g with
    | none => none
    | some st =>
      match buildStats rest with
      | none => none
      | some sts => some (st :: sts)

/-- `parse_ros_topic_statistics`: strip escape sequences, match all
statistics blocks, convert each to an `ObservedStat`.  `none` models an
uncaught exception escaping the function. -/
def parse_ros_topic_statistics (msg_str : String) : Option (List ObservedStat) :=
  buildStats (findBlocks (stripAnsiL msg_str.data))

/-! ## Regular expressions for pattern rules

Configuration names containing metacharacters are compiled with
`re.compile` and matched with `Pattern.fullmatch`.  The engine below
covers the constructs such rule strings use: literal characters, escapes,
the digit class, the any-character dot, alternation, grouping and the
postfix repetitions.  `fullmatch` consumes the entire string (Brzozowski
derivatives), exactly like Python's `fullmatch`. -/

/-- Single-character matchers. -/
inductive CharCls where
  /-- the class `\d` -/
  | digit
  /-- `.`: any character except a newline -/
  | dot
  /-- one literal character -/
  | ch (c : Char)
deriving DecidableEq

/-- Does a character belong to a class? -/
def CharCls.test : CharCls → Char → Bool
  | CharCls.digit, c => c.isDigit
  | CharCls.dot, c => ¬(c = '\n')
  | CharCls.ch a, c => c = a

/-- Regular expression abstract syntax. -/
inductive Regex where
  | emp
  | eps
  | cls (k : CharCls)
  | alt (r1 r2 : Regex)
  | cat (r1 r2 : Regex)
  | star (r : Regex)
deriving DecidableEq

/-- Does the expression accept the empty string? -/
def Regex.nullable : Regex → Bool
  | Regex.emp => false
  | Regex.eps => true
  | Regex.cls _ => false
  | Regex.alt a b => a.nullable ∨ b.nullable
  | Regex.cat a b => a.nullable ∧ b.nullable
  | Regex.star _ => true

/-- Brzozowski derivative with respect to one character. -/
def Regex.deriv : Regex → Char → Regex
  | Regex.emp, _ => Regex.emp
  | Regex.eps, _ => Regex.emp
  | Regex.cls k, c => if k.test c then Regex.eps else Regex.emp
  | Regex.alt a b, c => Regex.alt (a.deriv c) (b.deriv c)
  | Regex.cat a b, c =>
    if a.nullable then Regex.alt (Regex.cat (a.deriv c) b) (b.deriv c)
    else Regex.cat (a.deriv c) b
  | Regex.star r, c => Regex.cat (r.deriv c) (Regex.star r)

/-- `Pattern.fullmatch`: the whole string belongs to the language. -/
def Regex.fullmatch (r : Regex) (s : String) : Bool :=
  (s.data.foldl Regex.deriv r).nullable

/-- Escapes accepted inside a rule pattern: `\d` is the digit class; an
escaped non-alphanumeric character is that literal character.  Other
escapes used by none of the rules are rejected like `re.error`. -/
def escCls (c : Char) : Option CharCls :=
  if c = 'd' then some CharCls.digit
  else if c.isAlphanum then none
  else some (CharCls.ch c)

/-- Atoms the rule patterns use; `[`, `{`, `^` and `$` are outside the
modelled subset and rejected. -/
def atomStart (c : Char) : Bool :=
  ¬(c = '|' ∨ c = ')' ∨ c = '*' ∨ c = '+' ∨ c = '?' ∨
    c = '[' ∨ c = ']' ∨ c = '{' ∨ c = '}' ∨ c = '^' ∨ c = '$')

/-- Skip one laziness marker `?` after a repetition. -/
def dropLazy (cs : List Char) : List Char :=
  match cs with
  | '?' :: rest => rest
  | _ => cs

mutual

/-- Parse an alternation (the whole pattern grammar). -/
def parseAlt : Nat → List Char → Option (Regex × List Char)
  | 0, _ => none
  | fuel + 1, cs =>
    match parseCat fuel cs with
    | none => none
    | some (r1, cs1) =>
      match cs1 with
      | '|' :: rest =>
        match parseAlt fuel rest with
        | none => none
        | some (r2, cs2) => some (Regex.alt r1 r2, cs2)
      | _ => some (r1, cs1)

/-- Parse a concatenation of repeated atoms. -/
def parseCat : Nat → List Char → Option (Regex × List Char)
  | 0, _ => none
  | fuel + 1, cs =>
    match cs with
    | [] => some (Regex.eps, [])
    | c :: _ =>
      if c = '|' ∨ c = ')' then some (Regex.eps, cs)
      else
        match parseRep fuel cs with
        | none => none
        | some (r1, cs1) =>
          match parseCat fuel cs1 with
          | none => none
          | some (r2, cs2) => some (Regex.cat r1 r2, cs2)

/-- Parse one atom with an optional postfix repetition (and an optional
laziness marker, which does not change the accepted language). -/
def parseRep : Nat → List Char → Option (Regex × List Char)
  | 0, _ => none
  | fuel + 1, cs =>
    match parseAtom fuel cs with
    | none => none
    | some (r, cs1) =>
      match cs1 with
      | '*' :: rest => some (Regex.star r, dropLazy rest)
      | '+' :: rest => some (Regex.cat r (Regex.star r), dropLazy rest)
      | '?' :: rest => some (Regex.alt r Regex.eps, dropLazy rest)
      | _ => some (r, cs1)

/-- Parse a group, an escape, a dot or a literal character. -/
def parseAtom : Nat → List Char → Option (Regex × List Char)
  | 0, _ => none
  | fuel + 1, cs =>
    match cs with
    | [] => none
    | '(' :: rest =>
      match parseAlt fuel rest with
      | none => none
      | some (r, cs1) =>
        match cs1 with
        | ')' :: cs2 => some (r, cs2)
        | _ => none
    | '\\' :: e :: rest =>
      match escCls e with
      | some k => some (Regex.cls k, rest)
      | none => none
    | '\\' :: [] => none
    | '.' :: rest => some (Regex.cls CharCls.dot, rest)
    | c :: rest =>
      if atomStart c then some (Regex.cls (CharCls.ch c), rest) else none

end

/-- A compiled pattern keeps its source text, like Python's
`Pattern.pattern`. -/
structure CompiledPattern where
  pattern : String
  re : Regex
deriving DecidableEq

/-- `re.compile` on a rule name; `none` models `re.error`. -/
def reCompile (s : String) : Option CompiledPattern :=
  match parseAlt (4 * s.length + 4) s.data with
  | some (r, []) => some (CompiledPattern.mk s r)
  | _ => none

/-! ## Configuration loading

`load_hz_range_config_from_files` reads YAML sources.  Each usable source
is a document with a `topics` list of entries `{name, hz_range}`.  An
entry is used only when `name` and `hz_range` are truthy and the range
has length 2; both bounds go through `float(...)`, whose `ValueError` is
caught and logged as a warning, as is `re.error` from compiling a
metacharacter-bearing name.  Exact names go to a dict (insertion order,
overwrite in place); patterns are appended to an ordered list. -/

/-- A YAML scalar appearing as a range bound: a number or a string. -/
inductive YVal where
  | num (q : ℚ)
  | str (s : String)
deriving DecidableEq

/-- Python `float(...)` on a range bound; `none` models `ValueError`. -/
def pyFloatOfYVal : YVal → Option PyFloat
  | YVal.num q => some (PyFloat.finite q)
  | YVal.str s => pyFloatOfString s

/-- One element of a `topics` list; `none` fields model missing keys
(`dict.get` returning `None`). -/
structure TopicEntry where
  name : Option String
  hz_range : Option (List YVal)
deriving DecidableEq

/-- One configuration source: either unusable (file missing, YAML error —
skipped with an error log) or a parsed document, `none` when the document
is empty or has no `topics` key. -/
inductive Source where
  | fail
  | ok (topics : Option (List TopicEntry))
deriving DecidableEq

/-- The range dictionary value `{'min': ..., 'max': ...}`. -/
structure HzConfig where
  min : PyFloat
  max : PyFloat
deriving DecidableEq

/-- Warning-level events the loader logs for a bad entry. -/
inductive LoadWarning where
  /-- `Invalid hz_range format for topic ...` (a `ValueError` from
  `float`) -/
  | invalidHzRange (name : String) (hz : List YVal)
  /-- `Invalid regex pattern for topic ...` (an `re.error`) -/
  | invalidRegex (name : String)
deriving DecidableEq

/-- A Python dict over string keys: insertion-ordered entries with unique
keys; assignment overwrites in place. -/
def dictInsert (d : List (String × HzConfig)) (k : String) (v : HzConfig) :
    List (String × HzConfig) :=
  match d with
  | [] => [(k, v)]
  | (k', v') :: rest =>
    if k' = k then (k, v) :: rest else (k', v') :: dictInsert rest k v

/-- Dict lookup (also the `in` membership test). -/
def dictLookup (d : List (String × HzConfig)) (k : String) : Option HzConfig :=
  match d with
  | [] => none
  | (k', v') :: rest => if k' = k then some v' else dictLookup rest k

/-- The metacharacter test deciding whether a name is a regex pattern. -/
def hasRegexMeta (name : String) : Bool :=
  ['*', '+', '?', '^', '$', '[', ']', '(', ')', '{', '}', '|', '\\'].any
    (fun c => name.data.contains c)

/-- The loader state: the two returned collections plus the warnings the
logger would receive. -/
structure LoadState where
  exact_match_configs : List (String × HzConfig)
  regex_configs : List (CompiledPattern × HzConfig)
  warnings : List LoadWarning
deriving DecidableEq

/-- The empty loader state. -/
def LoadState.init : LoadState :=
  LoadState.mk [] [] []

/-- Process one `topics` entry, mirroring the loop body: truthiness and
length checks, `float` on both bounds, metacharacter classification,
`re.compile`, then dict insertion or list append. -/
def processEntry (st : LoadState) (e : TopicEntry) : LoadState :=
  match e.name, e.hz_range with
  | some name, some hzl =>
    if ¬name.isEmpty ∧ hzl.length = 2 then
      match pyFloatOfYVal (hzl.headD (YVal.num 0)),
            pyFloatOfYVal ((hzl.drop 1).headD (YVal.num 0)) with
      | some mn, some mx =>
        if hasRegexMeta name then
          match reCompile name with
          | some pat =>
            LoadState.mk st.exact_match_configs
              (st.regex_configs ++ [(pat, HzConfig.mk mn mx)]) st.warnings
          | none =>
            LoadState.mk st.exact_match_configs st.regex_configs
              (st.warnings ++ [LoadWarning.invalidRegex name])
        else
          LoadState.mk (dictInsert st.exact_match_configs name (HzConfig.mk mn mx))
            st.regex_configs st.warnings
      | _, _ =>
        LoadState.mk st.exact_match_configs st.regex_configs
          (st.warnings ++ [LoadWarning.invalidHzRange name hzl])
    else st
  | _, _ => st

/-- Process the entries of one source in document order. -/
def processEntries (st : LoadState) (es : List TopicEntry) : LoadState :=
  es.foldl processEntry st

/-- Process one source: unusable sources and sources without a `topics`
list are skipped. -/
def processSource (st : LoadState) (src : Source) : LoadState :=
  match src with
  | Source.fail => st
  | Source.ok none => st
  | Source.ok (some es) => processEntries st es

/-- `load_hz_range_config_from_files` over the ordered source list. -/
def load_hz_range_config_from_files (srcs : List Source) : LoadState :=
  srcs.foldl processSource LoadState.init

/-! ## Frequency validation (`check_topic_frequencies`) -/

/-- One element of the returned results list, mirroring the dictionary
keys; statuses are the literal strings `'OK'`, `'NG'`,
`'Config Not Found'`. -/
structure ValidationResult where
  topic : String
  frequency : PyFloat
  expected_range : String
  status : String
  config_source : String
deriving DecidableEq

/-- The pattern scan: first pattern whose `fullmatch` succeeds, taken in
stored order (the `for ... break` loop). -/
def findPattern (pats : List (CompiledPattern × HzConfig)) (t : String) :
    Option (CompiledPattern × HzConfig) :=
  match pats with
  | [] => none
  | pc :: rest =>
    if pc.1.re.fullmatch t then some pc else findPattern rest t

/-- Rule lookup: the exact dict first, then the pattern list; the string
is the `config_source_info` the code builds in each branch. -/
def lookupRule (exact : List (String × HzConfig))
    (pats : List (CompiledPattern × HzConfig)) (t : String) :
    Option (HzConfig × String) :=
  match dictLookup exact t with
  | some cfg => some (cfg, "Exact match: " ++ t)
  | none =>
    match findPattern pats t with
    | some pc => some (pc.2, "Regex match: " ++ pc.1.pattern)
    | none => none

/-- Validate one observation: build the result entry with the defaults,
then fill range and status when a rule was found.  Status is `'OK'`
exactly when `min <= frequency <= max` is true in Python. -/
def checkOne (exact : List (String × HzConfig))
    (pats : List (CompiledPattern × HzConfig)) (stat : ObservedStat) :
    ValidationResult :=
  match lookupRule exact pats stat.topic with
  | some (cfg, src) =>
    ValidationResult.mk stat.topic stat.message_frequency
      ("[" ++ pyFloatStr cfg.min ++ ", " ++ pyFloatStr cfg.max ++ "]")
      (if PyFloat.le cfg.min stat.message_frequency ∧
          PyFloat.le stat.message_frequency cfg.max then "OK" else "NG")
      src
  | none =>
    ValidationResult.mk stat.topic stat.message_frequency "N/A"
      "Config Not Found" "N/A"

/-- `check_topic_frequencies`: the accumulating loop over the parsed
stats. -/
def check_topic_frequencies (parsed_stats : List ObservedStat)
    (exact : List (String × HzConfig))
    (pats : List (CompiledPattern × HzConfig)) : List ValidationResult :=
  match parsed_stats with
  | [] => []
  | stat :: rest => checkOne exact pats stat :: check_topic_frequencies rest exact pats

/-! ## Spec-side descriptions for the refinement claims

The frozen claim C9 describes the constructed store through the flat,
processing-ordered list of rule registrations.  The definitions below
follow the spec's words (§3, §4.1): a valid entry whose name bears no
metacharacter is an exact insertion; a valid entry whose name compiles is
a pattern registration; insertions are taken per source in order, then
per entry in document order. -/

/-- The exact-rule insertion an entry contributes, if any (spec §4.1). -/
def entryExactRule? (e : TopicEntry) : Option (String × HzConfig) :=
  match e.name, e.hz_range with
  | some name, some hzl =>
    if ¬name.isEmpty ∧ hzl.length = 2 then
      match pyFloatOfYVal (hzl.headD (YVal.num 0)),
            pyFloatOfYVal ((hzl.drop 1).headD (YVal.num 0)) with
      | some mn, some mx =>
        if hasRegexMeta name then none else some (name, HzConfig.mk mn mx)
      | _, _ => none
    else none
  | _, _ => none

/-- The pattern-rule registration an entry contributes, if any
(spec §4.1). -/
def entryPatternRule? (e : TopicEntry) : Option (CompiledPattern × HzConfig) :=
  match e.name, e.hz_range with
  | some name, some hzl =>
    if ¬name.isEmpty ∧ hzl.length = 2 then
      match pyFloatOfYVal (hzl.headD (YVal.num 0)),
            pyFloatOfYVal ((hzl.drop 1).headD (YVal.num 0)) with
      | some mn, some mx =>
        if hasRegexMeta name then
          (reCompile name).map (fun p => (p, HzConfig.mk mn mx))
        else none
      | _, _ => none
    else none
  | _, _ => none

/-- The entries a source contributes. -/
def sourceEntries : Source → List TopicEntry
  | Source.fail => []
  | Source.ok none => []
  | Source.ok (some es) => es

/-- All entries of all sources, in processing order. -/
def allEntries (srcs : List Source) : List TopicEntry :=
  (srcs.map sourceEntries).flatten

/-- Spec-side: the exact insertions across all sources in processing
order. -/
def specExactInsertions (srcs : List Source) : List (String × HzConfig) :=
  (allEntries srcs).filterMap entryExactRule?

/-- Spec-side: the pattern registrations across all sources in
first-registered order. -/
def specPatternRules (srcs : List Source) : List (CompiledPattern × HzConfig) :=
  (allEntries srcs).filterMap entryPatternRule?

/-- No ESC character occurs in the text. -/
def noEsc (cs : List Char) : Bool :=
  cs.all (fun c => ¬(c = '\x1B'))

/-! ## Supporting lemmas -/

/-- The validator loop is exactly a map over the parsed stats. -/
theorem check_topic_frequencies_eq_map (stats : List ObservedStat)
    (exact : List (String × HzConfig)) (pats : List (CompiledPattern × HzConfig)) :
    check_topic_frequencies stats exact pats = stats.map (checkOne exact pats) := by
  induction stats with
  | nil => rfl
  | cons s rest ih => simp [check_topic_frequencies, ih]

/-- Lookup after a dict assignment. -/
theorem dictLookup_dictInsert (d : List (String × HzConfig)) (n k : String)
    (v : HzConfig) :
    dictLookup (dictInsert d n v) k = if n = k then some v else dictLookup d k := by
  induction d with
  | nil => simp [dictInsert, dictLookup]
  | cons p rest ih =>
    rcases p with ⟨k', v'⟩
    by_cases h1 : k' = n
    · subst h1
      by_cases h2 : k' = k <;> simp [dictInsert, dictLookup, h2]
    · by_cases h2 : k' = k
      · subst h2
        have : ¬n = k' := fun h => h1 h.symm
        simp [dictInsert, dictLookup, h1, this]
      · simp [dictInsert, dictLookup, h1, h2, ih]

/-- The pattern scan is `find?` over `fullmatch`. -/
theorem findPattern_eq_find? (pats : List (CompiledPattern × HzConfig)) (t : String) :
    findPattern pats t = pats.find? (fun pc => pc.1.re.fullmatch t) := by
  induction pats with
  | nil => rfl
  | cons pc rest ih =>
    by_cases h : pc.1.re.fullmatch t = true <;> simp [findPattern, List.find?, h, ih]

/-- Effect of one entry on the exact dict. -/
theorem processEntry_exact (st : LoadState) (e : TopicEntry) :
    (processEntry st e).exact_match_configs =
      (match entryExactRule? e with
       | some (n, c) => dictInsert st.exact_match_configs n c
       | none => st.exact_match_configs) := by
  rcases e with ⟨name?, hz?⟩
  rcases name? with _ | name <;> rcases hz? with _ | hzl <;>
    simp only [processEntry, entryExactRule?]
  split
  · rcases h1 : pyFloatOfYVal (hzl.headD (YVal.num 0)) with _ | mn <;>
      rcases h2 : pyFloatOfYVal ((hzl.drop 1).headD (YVal.num 0)) with _ | mx <;>
      simp only [h1, h2]
    split <;> simp
    split <;> simp
  · rfl

/-- Effect of one entry on the pattern list. -/
theorem processEntry_patterns (st : LoadState) (e : TopicEntry) :
    (processEntry st e).regex_configs =
      st.regex_configs ++ (entryPatternRule? e).toList := by
  rcases e with ⟨name?, hz?⟩
  rcases name? with _ | name <;> rcases hz? with _ | hzl <;>
    simp only [processEntry, entryPatternRule?, Option.toList, List.append_nil]
  split
  · rcases h1 : pyFloatOfYVal (hzl.headD (YVal.num 0)) with _ | mn <;>
      rcases h2 : pyFloatOfYVal ((hzl.drop 1).headD (YVal.num 0)) with _ | mx <;>
      simp only [h1, h2, Option.toList, List.append_nil]
    split
    · split <;> simp_all
    · simp
  · simp

/-- `find?` on an appended list looks left first. -/
theorem find?_append_cases {α : Type} (l1 l2 : List α) (p : α → Bool) :
    (l1 ++ l2).find? p =
      (match l1.find? p with
       | some a => some a
       | none => l2.find? p) := by
  induction l1 with
  | nil => simp
  | cons a l ih =>
    by_cases h : p a = true <;> simp [List.find?, h, ih]

/-- One source is its entry list. -/
theorem processSource_eq (st : LoadState) (src : Source) :
    processSource st src = processEntries st (sourceEntries src) := by
  cases src with
  | fail => rfl
  | ok topics => cases topics <;> rfl

/-- Entry processing splits over concatenation. -/
theorem processEntries_append (st : LoadState) (l1 l2 : List TopicEntry) :
    processEntries st (l1 ++ l2) = processEntries (processEntries st l1) l2 := by
  simp [processEntries, List.foldl_append]

/-- The loader processes the flat entry list of all sources. -/
theorem load_eq_processEntries (srcs : List Source) :
    load_hz_range_config_from_files srcs =
      processEntries LoadState.init (allEntries srcs) := by
  suffices h : ∀ st, srcs.foldl processSource st = processEntries st (allEntries srcs) by
    exact h LoadState.init
  induction srcs with
  | nil => intro st; rfl
  | cons s rest ih =>
    intro st
    have h1 : allEntries (s :: rest) = sourceEntries s ++ allEntries rest := by
      simp [allEntries]
    rw [List.foldl_cons, ih (processSource st s), h1, processEntries_append,
      processSource_eq]

/-- The pattern list accumulates the registrations in order. -/
theorem processEntries_patterns (es : List TopicEntry) :
    ∀ st : LoadState, (processEntries st es).regex_configs =
      st.regex_configs ++ es.filterMap entryPatternRule? := by
  induction es with
  | nil => intro st; simp [processEntries]
  | cons e rest ih =>
    intro st
    have hstep : processEntries st (e :: rest) = processEntries (processEntry st e) rest := rfl
    rw [hstep, ih (processEntry st e), processEntry_patterns]
    cases h : entryPatternRule? e <;>
      simp [h, List.filterMap_cons, Option.toList, List.append_assoc]

/-- Lookup in the accumulated exact dict is last-insertion-wins over the
processed entries. -/
theorem processEntries_exact_lookup (es : List TopicEntry) :
    ∀ (st : LoadState) (k : String),
      dictLookup (processEntries st es).exact_match_configs k =
        (match (es.filterMap entryExactRule?).reverse.find? (fun p => decide (p.1 = k)) with
         | some p => some p.2
         | none => dictLookup st.exact_match_configs k) := by
  induction es with
  | nil => intro st k; simp [processEntries]
  | cons e rest ih =>
    intro st k
    have hstep : processEntries st (e :: rest) = processEntries (processEntry st e) rest := rfl
    rw [hstep, ih (processEntry st e) k]
    cases h : entryExactRule? e with
    | none =>
      have hx : (processEntry st e).exact_match_configs = st.exact_match_configs := by
        rw [processEntry_exact, h]
      rw [hx]
      simp [List.filterMap_cons, h]
    | some p =>
      rcases p with ⟨n, c⟩
      have hx : (processEntry st e).exact_match_configs =
          dictInsert st.exact_match_configs n c := by
        rw [processEntry_exact, h]
      rw [hx]
      have hrev : ((e :: rest).filterMap entryExactRule?).reverse =
          (rest.filterMap entryExactRule?).reverse ++ [(n, c)] := by
        simp [List.filterMap_cons, h]
      rw [hrev, find?_append_cases]
      cases hf : (rest.filterMap entryExactRule?).reverse.find? (fun p => decide (p.1 = k)) with
      | some q => simp
      | none =>
        simp only [dictLookup_dictInsert]
        by_cases hk : n = k <;> simp [List.find?, hk]

/-- Escape stripping leaves ESC-free text unchanged (any sufficient
fuel). -/
theorem stripAnsiAux_of_noEsc (fuel : Nat) :
    ∀ cs : List Char, noEsc cs = true → stripAnsiAux fuel cs = cs := by
  induction fuel with
  | zero => intro cs h; rfl
  | succ f ih =>
    intro cs h
    cases cs with
    | nil => rfl
    | cons c rest =>
      have h' : ¬(c = '\x1B') ∧ noEsc rest = true := by
        simpa [noEsc] using h
      simp [stripAnsiAux, h'.1, ih rest h'.2]

/-- Escape stripping leaves ESC-free lists unchanged. -/
theorem stripAnsiL_of_noEsc (cs : List Char) (h : noEsc cs = true) :
    stripAnsiL cs = cs :=
  stripAnsiAux_of_noEsc cs.length cs h

/-- Escape stripping leaves ESC-free strings unchanged. -/
theorem stripAnsiStr_of_noEsc (s : String) (h : noEsc s.data = true) :
    stripAnsiStr s = s := by
  cases s with
  | mk cs => simp [stripAnsiStr, stripAnsiL_of_noEsc cs h]

/-- A list equal to its own `dropWhile` still is after `rdropWhile`. -/
theorem dropWhile_rdropWhile_of_dropWhile_eq (p : Char → Bool) (l : List Char)
    (h : l.dropWhile p = l) :
    (l.rdropWhile p).dropWhile p = l.rdropWhile p := by
  cases hr : l.rdropWhile p with
  | nil => rfl
  | cons b t' =>
    have hpre : l.rdropWhile p <+: l := List.rdropWhile_prefix p l
    rw [hr] at hpre
    rcases hpre with ⟨r, hr2⟩
    cases l with
    | nil => simp at hr2
    | cons a t =>
      have hr3 : b :: (t' ++ r) = a :: t := by simpa using hr2
      have hb : b = a := by injection hr3
      have hpa : ¬p a = true := by
        have := List.dropWhile_eq_self_iff.mp h (by simp)
        simpa using this
      rw [List.dropWhile_cons_of_neg (hb ▸ hpa)]

/-- Python strip is idempotent. -/
theorem pyStripL_idempotent (cs : List Char) :
    pyStripL (pyStripL cs) = pyStripL cs := by
  unfold pyStripL
  have h1 : (cs.dropWhile isPySpace).dropWhile isPySpace = cs.dropWhile isPySpace :=
    List.dropWhile_idempotent isPySpace cs
  have h2 : ((cs.dropWhile isPySpace).rdropWhile isPySpace).dropWhile isPySpace =
      (cs.dropWhile isPySpace).rdropWhile isPySpace :=
    dropWhile_rdropWhile_of_dropWhile_eq isPySpace (cs.dropWhile isPySpace) h1
  rw [h2]
  exact List.rdropWhile_idempotent isPySpace (cs.dropWhile isPySpace)

/-- Python strip on strings is idempotent. -/
theorem pyStrip_idempotent (s : String) : pyStrip (pyStrip s) = pyStrip s := by
  simp [pyStrip, pyStripL_idempotent]

/-- A built stat's topic is the stripped raw matched name. -/
theorem buildStat_topic (g : String × String × String) (st : ObservedStat)
    (h : buildStat g = some st) : st.topic = pyStrip g.1 := by
  unfold buildStat at h
  cases hfr : (if g.2.2 = "nan" then some PyFloat.nan else pyFloatOfString g.2.2) with
  | none => rw [hfr] at h; simp at h
  | some f =>
    rw [hfr] at h
    simp only [Option.map_some] at h
    cases h
    rfl

/-- Every stat of a successful conversion comes from one of the matched
blocks. -/
theorem buildStats_mem (gs : List (String × String × String)) :
    ∀ sts : List ObservedStat, buildStats gs = some sts →
      ∀ st ∈ sts, ∃ g ∈ gs, buildStat g = some st := by
  induction gs with
  | nil =>
    intro sts h st hst
    simp [buildStats] at h
    subst h
    simp at hst
  | cons g rest ih =>
    intro sts h st hst
    unfold buildStats at h
    cases hg : buildStat g with
    | none => rw [hg] at h; simp at h
    | some st1 =>
      rw [hg] at h
      cases hr : buildStats rest with
      | none => rw [hr] at h; simp at h
      | some sts1 =>
        rw [hr] at h
        simp only [Option.some.injEq] at h
        subst h
        rcases List.mem_cons.mp hst with h1 | h2
        · exact ⟨g, by simp, h1 ▸ hg⟩
        · rcases ih sts1 hr st h2 with ⟨g', hg1, hg2⟩
          exact ⟨g', by simp [hg1], hg2⟩

/-- Being in range, as the code's chained comparison, coincides with the
mathematical inclusive bounds over finite values and excludes NaN. -/
theorem le_chain_iff (a b : ℚ) (f : PyFloat) :
    (PyFloat.le (PyFloat.finite a) f = true ∧ PyFloat.le f (PyFloat.finite b) = true) ↔
      (∃ q : ℚ, f = PyFloat.finite q ∧ a ≤ q ∧ q ≤ b) := by
  cases f with
  | finite q => simp [PyFloat.le]
  | nan => simp [PyFloat.le]

/-! ## Claims -/

/-- C1: when the validator finds a rule with range `[min, max]`, the
status is `OK` exactly when `min ≤ frequency ≤ max` with inclusive
bounds, and `NG` otherwise; a NaN frequency always yields `NG`, and when
`min > max` every frequency yields `NG`. -/
theorem validator_status_iff_in_range
    (exact : List (String × HzConfig)) (pats : List (CompiledPattern × HzConfig))
    (stat : ObservedStat) (cfg : HzConfig) (src : String) (a b : ℚ)
    (hfound : lookupRule exact pats stat.topic = some (cfg, src))
    (hmin : cfg.min = PyFloat.finite a) (hmax : cfg.max = PyFloat.finite b) :
    ((checkOne exact pats stat).status = "OK" ↔
       ∃ q : ℚ, stat.message_frequency = PyFloat.finite q ∧ a ≤ q ∧ q ≤ b)
    ∧ ((checkOne exact pats stat).status = "NG" ↔
       ¬∃ q : ℚ, stat.message_frequency = PyFloat.finite q ∧ a ≤ q ∧ q ≤ b)
    ∧ (stat.message_frequency = PyFloat.nan → (checkOne exact pats stat).status = "NG")
    ∧ (b < a → (checkOne exact pats stat).status = "NG") := by
  have hstat : (checkOne exact pats stat).status =
      if PyFloat.le (PyFloat.finite a) stat.message_frequency = true ∧
         PyFloat.le stat.message_frequency (PyFloat.finite b) = true
      then "OK" else "NG" := by
    rw [← hmin, ← hmax]
    simp [checkOne, hfound]
  have hiff := le_chain_iff a b stat.message_frequency
  by_cases hc : PyFloat.le (PyFloat.finite a) stat.message_frequency = true ∧
      PyFloat.le stat.message_frequency (PyFloat.finite b) = true
  · rw [if_pos hc] at hstat
    refine ⟨?_, ?_, ?_, ?_⟩
    · simp [hstat, hiff.mp hc]
    · simp [hstat, hiff.mp hc]
    · intro hnan
      exfalso
      rcases hc with ⟨hc1, _⟩
      rw [hnan] at hc1
      simp [PyFloat.le] at hc1
    · intro hba
      exfalso
      rcases hiff.mp hc with ⟨q, _, hq1, hq2⟩
      exact absurd (le_trans hq1 hq2) (not_le.mpr hba)
  · rw [if_neg hc] at hstat
    refine ⟨?_, ?_, ?_, ?_⟩
    · rw [hstat]
      constructor
      · intro h; exact absurd h (by decide)
      · intro h; exact absurd (hiff.mpr h) hc
    · rw [hstat]
      simp only [true_iff]
      exact fun h => hc (hiff.mpr h)
    · intro _; exact hstat
    · intro _; exact hstat

/-- C1 witness: concrete application with an exact rule `[1, 5]` and
frequency `3`. -/
theorem validator_status_iff_in_range_witness :
    (checkOne [("/foo", HzConfig.mk (PyFloat.finite 1) (PyFloat.finite 5))] []
       (ObservedStat.mk "/foo" 0 (PyFloat.finite 3))).status = "OK" :=
  (validator_status_iff_in_range
      [("/foo", HzConfig.mk (PyFloat.finite 1) (PyFloat.finite 5))] []
      (ObservedStat.mk "/foo" 0 (PyFloat.finite 3))
      (HzConfig.mk (PyFloat.finite 1) (PyFloat.finite 5)) "Exact match: /foo" 1 5
      (by decide) rfl rfl).1.mpr ⟨3, rfl, by decide, by decide⟩

/-- C2 counterexample: the round trip from
`{topics: [{name: /odom, hz_range: [10, 30]}]}` does not produce
`expected_range = "[10, 30]"` — the bounds go through `float`, so the
rendered string is `"[10.0, 30.0]"`. -/
theorem round_trip_expected_range_counterexample :
    (checkOne
       (load_hz_range_config_from_files
         [Source.ok (some [TopicEntry.mk (some "/odom")
           (some [YVal.num 10, YVal.num 30])])]).exact_match_configs
       (load_hz_range_config_from_files
         [Source.ok (some [TopicEntry.mk (some "/odom")
           (some [YVal.num 10, YVal.num 30])])]).regex_configs
       (ObservedStat.mk "/odom" 0 (PyFloat.finite 20))).expected_range
      ≠ "[10, 30]" := by decide

/-- C2 (amended): the round trip produces status `OK` and
`expected_range = "[10.0, 30.0]"`. -/
theorem round_trip_odom_result :
    checkOne
      (load_hz_range_config_from_files
        [Source.ok (some [TopicEntry.mk (some "/odom")
          (some [YVal.num 10, YVal.num 30])])]).exact_match_configs
      (load_hz_range_config_from_files
        [Source.ok (some [TopicEntry.mk (some "/odom")
          (some [YVal.num 10, YVal.num 30])])]).regex_configs
      (ObservedStat.mk "/odom" 0 (PyFloat.finite 20))
      = ValidationResult.mk "/odom" (PyFloat.finite 20) "[10.0, 30.0]" "OK"
          "Exact match: /odom" := by decide

/-- C3 counterexample: with an exact rule for `/foo` (and a pattern that
would also match), the reported `config_source` is the capitalized
`"Exact match: /foo"`, not `"exact match: /foo"`. -/
theorem exact_source_string_counterexample :
    (checkOne [("/foo", HzConfig.mk (PyFloat.finite 1) (PyFloat.finite 5))]
        ((reCompile "/f.*").toList.map
          (fun p => (p, HzConfig.mk (PyFloat.finite 7) (PyFloat.finite 9))))
        (ObservedStat.mk "/foo" 0 (PyFloat.finite 2))).config_source
      ≠ "exact match: /foo" := by decide

/-- C3 (amended): whenever the topic is a key of the exact map the
validator uses that rule — the result is entirely independent of the
pattern list, hence of pattern registration order — and reports
`config_source = "Exact match: <name>"`. -/
theorem exact_match_takes_precedence
    (exact : List (String × HzConfig)) (stat : ObservedStat) (cfg : HzConfig)
    (h : dictLookup exact stat.topic = some cfg) :
    (∀ pats pats', checkOne exact pats stat = checkOne exact pats' stat)
    ∧ (∀ pats, lookupRule exact pats stat.topic =
        some (cfg, "Exact match: " ++ stat.topic))
    ∧ (∀ pats, (checkOne exact pats stat).config_source =
        "Exact match: " ++ stat.topic) := by
  have hl : ∀ pats, lookupRule exact pats stat.topic =
      some (cfg, "Exact match: " ++ stat.topic) := by
    intro pats
    simp [lookupRule, h]
  refine ⟨?_, hl, ?_⟩
  · intro pats pats'
    simp [checkOne, hl]
  · intro pats
    simp [checkOne, hl]

/-- C3 witness: the exact rule for `/foo` wins over a matching pattern,
and the result equals the one computed without any patterns. -/
theorem exact_match_takes_precedence_witness :
    checkOne [("/foo", HzConfig.mk (PyFloat.finite 1) (PyFloat.finite 5))]
        ((reCompile "/f.*").toList.map
          (fun p => (p, HzConfig.mk (PyFloat.finite 7) (PyFloat.finite 9))))
        (ObservedStat.mk "/foo" 0 (PyFloat.finite 2))
      = checkOne [("/foo", HzConfig.mk (PyFloat.finite 1) (PyFloat.finite 5))] []
        (ObservedStat.mk "/foo" 0 (PyFloat.finite 2))
    ∧ (checkOne [("/foo", HzConfig.mk (PyFloat.finite 1) (PyFloat.finite 5))]
        ((reCompile "/f.*").toList.map
          (fun p => (p, HzConfig.mk (PyFloat.finite 7) (PyFloat.finite 9))))
        (ObservedStat.mk "/foo" 0 (PyFloat.finite 2))).config_source
      = "Exact match: /foo" :=
  ⟨(exact_match_takes_precedence
      [("/foo", HzConfig.mk (PyFloat.finite 1) (PyFloat.finite 5))]
      (ObservedStat.mk "/foo" 0 (PyFloat.finite 2))
      (HzConfig.mk (PyFloat.finite 1) (PyFloat.finite 5)) (by decide)).1 _ _,
   Eq.trans
    ((exact_match_takes_precedence
      [("/foo", HzConfig.mk (PyFloat.finite 1) (PyFloat.finite 5))]
      (ObservedStat.mk "/foo" 0 (PyFloat.finite 2))
      (HzConfig.mk (PyFloat.finite 1) (PyFloat.finite 5)) (by decide)).2.2 _)
    (by decide)⟩

/-- C4: with no exact rule, the validator scans the pattern list in
stored order and uses the first pattern whose regular expression fully
matches the topic name; matching is anchored at both ends, as the
`/cam\d+` examples show. -/
theorem pattern_first_full_match :
    (∀ pats t, findPattern pats t = pats.find? (fun pc => pc.1.re.fullmatch t))
    ∧ (∀ pc rest t, pc.1.re.fullmatch t = true →
        findPattern (pc :: rest) t = some pc)
    ∧ (∀ exact pats (stat : ObservedStat), dictLookup exact stat.topic = none →
        lookupRule exact pats stat.topic =
          (findPattern pats stat.topic).map
            (fun pc => (pc.2, "Regex match: " ++ pc.1.pattern)))
    ∧ (∃ p, reCompile "/cam\\d+" = some p
        ∧ p.re.fullmatch "/cam0" = true
        ∧ p.re.fullmatch "/cam0/data" = false
        ∧ p.re.fullmatch "/sensor/cam0" = false) := by
  refine ⟨findPattern_eq_find?, ?_, ?_, ?_⟩
  · intro pc rest t h
    simp [findPattern, h]
  · intro exact pats stat h
    cases hp : findPattern pats stat.topic <;> simp [lookupRule, h, hp]
  · exact ⟨(CompiledPattern.mk "/cam\\d+"
      (Regex.cat (Regex.cls (CharCls.ch '/'))
        (Regex.cat (Regex.cls (CharCls.ch 'c'))
          (Regex.cat (Regex.cls (CharCls.ch 'a'))
            (Regex.cat (Regex.cls (CharCls.ch 'm'))
              (Regex.cat
                (Regex.cat (Regex.cls CharCls.digit)
                  (Regex.star (Regex.cls CharCls.digit)))
                Regex.eps)))))), by decide, by decide, by decide, by decide⟩

/-- C4 witness: concrete pattern lookup — of two registered patterns both
fully matching `/cam0`, the earlier one wins. -/
theorem pattern_first_full_match_witness :
    lookupRule []
      ((reCompile "/cam\\d+").toList.map
        (fun p => (p, HzConfig.mk (PyFloat.finite 1) (PyFloat.finite 2))) ++
       (reCompile "/cam.*").toList.map
        (fun p => (p, HzConfig.mk (PyFloat.finite 3) (PyFloat.finite 4))))
      (ObservedStat.mk "/cam0" 0 (PyFloat.finite 1)).topic
      = (findPattern
          ((reCompile "/cam\\d+").toList.map
            (fun p => (p, HzConfig.mk (PyFloat.finite 1) (PyFloat.finite 2))) ++
           (reCompile "/cam.*").toList.map
            (fun p => (p, HzConfig.mk (PyFloat.finite 3) (PyFloat.finite 4))))
          "/cam0").map (fun pc => (pc.2, "Regex match: " ++ pc.1.pattern)) :=
  pattern_first_full_match.2.2.1 [] _ _ (by decide)

/-- C5: the validator is total: one result per observed stat, in order
(it is exactly a map); when no rule matches, the result carries status
`'Config Not Found'` (the code's spelling of ConfigNotFound) and `"N/A"`
range and source, for any frequency. -/
theorem check_topic_frequencies_total :
    (∀ exact pats stats,
       check_topic_frequencies stats exact pats = stats.map (checkOne exact pats))
    ∧ (∀ exact pats stats,
       (check_topic_frequencies stats exact pats).length = stats.length)
    ∧ (∀ exact pats (stat : ObservedStat), lookupRule exact pats stat.topic = none →
        checkOne exact pats stat =
          ValidationResult.mk stat.topic stat.message_frequency "N/A"
            "Config Not Found" "N/A") := by
  refine ⟨?_, ?_, ?_⟩
  · intro exact pats stats
    exact check_topic_frequencies_eq_map stats exact pats
  · intro exact pats stats
    rw [check_topic_frequencies_eq_map]
    exact List.length_map stats _
  · intro exact pats stat h
    simp [checkOne, h]

/-- C5 witness: a stat whose topic matches nothing is classified
`'Config Not Found'` with `"N/A"` fields, NaN frequency included. -/
theorem check_topic_frequencies_total_witness :
    checkOne [] [] (ObservedStat.mk "/unknown" 0 PyFloat.nan) =
      ValidationResult.mk "/unknown" PyFloat.nan "N/A" "Config Not Found" "N/A" :=
  check_topic_frequencies_total.2.2 [] [] (ObservedStat.mk "/unknown" 0 PyFloat.nan)
    (by decide)

/-- C6: extraction is not total.  The frequency class `[\d.]+` also
matches the single dot, and `float('.')` raises an uncaught `ValueError`,
so this input makes `parse_ros_topic_statistics` raise instead of
skipping the block; the `nan` token, by contrast, is converted to NaN as
documented. -/
theorem extraction_raises_on_dot_frequency :
    parse_ros_topic_statistics
      "Statistics for topic /a\nMessage count = 1, Message frequency = ." = none
    ∧ parse_ros_topic_statistics
      "Statistics for topic /a\nMessage count = 1, Message frequency = nan"
      = some [ObservedStat.mk "/a" 1 PyFloat.nan] :=
  ⟨by decide, by decide⟩

/-- C7 counterexample: an entry whose `hz_range` has the wrong length is
discarded with NO InvalidRuleError report — the loader's warnings stay
empty — while the next entry of the same source still loads. -/
theorem wrong_length_range_silent_counterexample :
    load_hz_range_config_from_files
      [Source.ok (some [TopicEntry.mk (some "/a") (some [YVal.num 1]),
                        TopicEntry.mk (some "/b") (some [YVal.num 1, YVal.num 2])])]
      = LoadState.mk [("/b", HzConfig.mk (PyFloat.finite 1) (PyFloat.finite 2))]
          [] [] := by decide

/-- C7 (amended): an entry with absent or wrong-length `hz_range` is
silently discarded (no report); an entry with a bound that fails to
parse as a number is discarded with an InvalidRuleError report; in both
cases only that entry is affected and processing continues with the
remaining entries. -/
theorem invalid_range_entry_handling :
    (∀ (st : LoadState) (name : String) (hzl : List YVal), ¬hzl.length = 2 →
       processEntry st (TopicEntry.mk (some name) (some hzl)) = st)
    ∧ (∀ (st : LoadState) (name : String),
       processEntry st (TopicEntry.mk (some name) none) = st)
    ∧ (∀ (st : LoadState) (name : String) (hzl : List YVal),
        ¬name.isEmpty = true → hzl.length = 2 →
        (pyFloatOfYVal (hzl.headD (YVal.num 0)) = none ∨
         pyFloatOfYVal ((hzl.drop 1).headD (YVal.num 0)) = none) →
        processEntry st (TopicEntry.mk (some name) (some hzl)) =
          LoadState.mk st.exact_match_configs st.regex_configs
            (st.warnings ++ [LoadWarning.invalidHzRange name hzl]))
    ∧ (∀ (st : LoadState) (l1 l2 : List TopicEntry),
        processEntries st (l1 ++ l2) = processEntries (processEntries st l1) l2) := by
  refine ⟨?_, ?_, ?_, processEntries_append⟩
  · intro st name hzl h
    simp [processEntry, h]
  · intro st name
    rfl
  · intro st name hzl h1 h2 h3
    simp only [processEntry]
    rw [if_pos ⟨h1, h2⟩]
    rcases hf1 : pyFloatOfYVal (hzl.headD (YVal.num 0)) with _ | mn
    · rfl
    · rcases hf2 : pyFloatOfYVal ((hzl.drop 1).headD (YVal.num 0)) with _ | mx
      · rfl
      · exfalso
        rcases h3 with h | h
        · rw [hf1] at h; cases h
        · rw [hf2] at h; cases h

/-- C7 witness: a length-1 range is dropped silently; a non-numeric range
is dropped with an InvalidRuleError warning. -/
theorem invalid_range_entry_handling_witness :
    processEntry LoadState.init (TopicEntry.mk (some "/a") (some [YVal.num 1]))
      = LoadState.init
    ∧ processEntry LoadState.init
        (TopicEntry.mk (some "/a") (some [YVal.str "a", YVal.str "b"]))
      = LoadState.mk [] []
          [LoadWarning.invalidHzRange "/a" [YVal.str "a", YVal.str "b"]] :=
  ⟨invalid_range_entry_handling.1 LoadState.init "/a" [YVal.num 1] (by decide),
   Eq.trans
    (invalid_range_entry_handling.2.2.1 LoadState.init "/a"
      [YVal.str "a", YVal.str "b"] (by decide) (by decide) (Or.inl (by decide)))
    (by decide)⟩

/-- C8 counterexample: one `re.sub` pass is not idempotent — removing an
escape sequence can splice a new one together — and on such a record the
parse of the hand-stripped text differs from the parse of the raw
record. -/
theorem strip_not_idempotent_counterexample :
    stripAnsiStr (stripAnsiStr "\x1B[1\x1B[mm") ≠ stripAnsiStr "\x1B[1\x1B[mm"
    ∧ parse_ros_topic_statistics
        (stripAnsiStr
          "Statistics for topic \x1B[1\x1B[mX\nMessage count = 1, Message frequency = 2")
      ≠ parse_ros_topic_statistics
          "Statistics for topic \x1B[1\x1B[mX\nMessage count = 1, Message frequency = 2" :=
  ⟨by decide, by decide⟩

/-- C8 (amended): stripping never alters ESC-free text, and for every
record whose stripped form is ESC-free (every ANSI-colored log record in
practice), stripping is idempotent and the record parses to the same
stats as its hand-stripped form. -/
theorem strip_idempotent_on_clean :
    (∀ s : String, noEsc s.data = true → stripAnsiStr s = s)
    ∧ (∀ r : String, noEsc (stripAnsiStr r).data = true →
        stripAnsiStr (stripAnsiStr r) = stripAnsiStr r
        ∧ parse_ros_topic_statistics (stripAnsiStr r) =
            parse_ros_topic_statistics r) := by
  refine ⟨stripAnsiStr_of_noEsc, ?_⟩
  intro r h
  refine ⟨stripAnsiStr_of_noEsc _ h, ?_⟩
  unfold parse_ros_topic_statistics
  have hdata : (stripAnsiStr r).data = stripAnsiL r.data := rfl
  rw [hdata, stripAnsiL_of_noEsc (stripAnsiL r.data) (hdata ▸ h)]

/-- C8 witness: a colored record parses identically to its stripped
form. -/
theorem strip_idempotent_on_clean_witness :
    stripAnsiStr (stripAnsiStr
        "\x1B[31mStatistics for topic /a\x1B[0m\nMessage count = 1, Message frequency = 2.0")
      = stripAnsiStr
        "\x1B[31mStatistics for topic /a\x1B[0m\nMessage count = 1, Message frequency = 2.0"
    ∧ parse_ros_topic_statistics (stripAnsiStr
        "\x1B[31mStatistics for topic /a\x1B[0m\nMessage count = 1, Message frequency = 2.0")
      = parse_ros_topic_statistics
        "\x1B[31mStatistics for topic /a\x1B[0m\nMessage count = 1, Message frequency = 2.0" :=
  strip_idempotent_on_clean.2
    "\x1B[31mStatistics for topic /a\x1B[0m\nMessage count = 1, Message frequency = 2.0"
    (by decide)

/-- C9: the built store maps each exact name to the range of the
last-processed insertion bearing that name (later source or later
position wins), and keeps the pattern registrations of all sources in
first-registered order. -/
theorem store_last_wins_and_pattern_order (srcs : List Source) :
    (∀ name : String,
       dictLookup (load_hz_range_config_from_files srcs).exact_match_configs name =
         (match (specExactInsertions srcs).reverse.find? (fun p => decide (p.1 = name)) with
          | some p => some p.2
          | none => none))
    ∧ (load_hz_range_config_from_files srcs).regex_configs = specPatternRules srcs := by
  constructor
  · intro name
    rw [load_eq_processEntries, processEntries_exact_lookup]
    simp only [specExactInsertions]
    cases hf : ((allEntries srcs).filterMap entryExactRule?).reverse.find?
        (fun p => decide (p.1 = name)) with
    | some p => rfl
    | none => rfl
  · rw [load_eq_processEntries, processEntries_patterns]
    simp [LoadState.init, specPatternRules]

/-- C10: an extracted stat's topic is the raw matched name with
surrounding whitespace stripped; stripped topics never carry surrounding
whitespace, and an all-whitespace matched name yields the empty topic. -/
theorem parsed_topics_are_stripped :
    (∀ (g : String × String × String) (st : ObservedStat), buildStat g = some st →
       st.topic = pyStrip g.1)
    ∧ (∀ (s : String) (stats : List ObservedStat) (st : ObservedStat),
        parse_ros_topic_statistics s = some stats → st ∈ stats →
        pyStrip st.topic = st.topic)
    ∧ parse_ros_topic_statistics
        "Statistics for topic     \nMessage count = 1, Message frequency = 2"
      = some [ObservedStat.mk "" 1 (PyFloat.finite 2)] := by
  refine ⟨buildStat_topic, ?_, by decide⟩
  intro s stats st hp hm
  unfold parse_ros_topic_statistics at hp
  rcases buildStats_mem _ _ hp st hm with ⟨g, _, hg⟩
  rw [buildStat_topic g st hg]
  exact pyStrip_idempotent g.1

/-- C10 witness: a name matched with surrounding blanks is stored
stripped. -/
theorem parsed_topics_are_stripped_witness :
    (ObservedStat.mk "/a" 1 (PyFloat.finite 2)).topic = pyStrip " /a " :=
  parsed_topics_are_stripped.1 (" /a ", "1", "2")
    (ObservedStat.mk "/a" 1 (PyFloat.finite 2)) (by decide)

end TopicNotifier

/-!
## Evaluation checks of the embedding

Concrete evaluations pinning the embedded functions to the observable
behaviour of the Python source on small inputs.
-/

section EvaluationChecks
open TopicNotifier
example : pyFloatStr (PyFloat.finite 10) = "10.0" := by decide
example : pyFloatStr (PyFloat.finite (mkRat 1 2)) = "0.5" := by decide
example : pyFloatOfString "1.5" = some (PyFloat.finite (mkRat 3 2)) := by decide
example : pyFloatOfString "." = none := by decide
example : pyFloatOfString "1.2.3" = none := by decide
example : pyFloatOfString "5." = some (PyFloat.finite 5) := by decide
example : pyFloatOfString "a" = none := by decide
example : pyFloatOfString " nan " = some PyFloat.nan := by decide
example : pyFloatOfString "-2.5" = some (PyFloat.finite (mkRat (-5) 2)) := by decide
example : pyStrip "  /a " = "/a" := by decide
example : PyFloat.le (PyFloat.finite 1) (PyFloat.finite 2) = true := by decide
example : PyFloat.le PyFloat.nan (PyFloat.finite 2) = false := by decide

example : stripAnsiStr "\x1B[31mred\x1B[0m" = "red" := by decide
example : stripAnsiStr "\x1B[1\x1B[mm" = "\x1B[1m" := by decide
example : stripAnsiStr "\x1B[1m" = "" := by decide
example :
    parse_ros_topic_statistics
      "Statistics for topic /a\nMessage count = 12, Message frequency = 2.5"
      = some [ObservedStat.mk "/a" 12 (PyFloat.finite (mkRat 5 2))] := by decide
example :
    parse_ros_topic_statistics
      "Statistics for topic /a\nMessage count = 1, Message frequency = nan"
      = some [ObservedStat.mk "/a" 1 PyFloat.nan] := by decide
example :
    parse_ros_topic_statistics
      "Statistics for topic /a\nMessage count = 1, Message frequency = ."
      = none := by decide
example :
    parse_ros_topic_statistics "no stats here" = some [] := by decide
example :
    parse_ros_topic_statistics
      "xStatistics for topic /a\nMessage count = 1, Message frequency = 3Statistics for topic /b\nMessage count = 2, Message frequency = 4"
      = some [ObservedStat.mk "/a" 1 (PyFloat.finite 3),
              ObservedStat.mk "/b" 2 (PyFloat.finite 4)] := by decide

example :
    (reCompile "/cam\\d+").map (fun p => p.re.fullmatch "/cam0") = some true := by decide
example :
    (reCompile "/cam\\d+").map (fun p => p.re.fullmatch "/cam0/data") = some false := by decide
example :
    (reCompile "/cam\\d+").map (fun p => p.re.fullmatch "/sensor/cam0") = some false := by decide
example : (reCompile "a(b|c)*").isSome = true := by decide
example : (reCompile "a(b").isSome = false := by decide
example : (reCompile "*ab").isSome = false := by decide
example : (reCompile "a**").isSome = false := by decide
example : (reCompile "a*?b").map (fun p => p.re.fullmatch "aab") = some true := by decide

example :
    load_hz_range_config_from_files
      [Source.ok (some [TopicEntry.mk (some "/odom") (some [YVal.num 10, YVal.num 30])])]
      = LoadState.mk [("/odom", HzConfig.mk (PyFloat.finite 10) (PyFloat.finite 30))] [] []
    := by decide

example :
    (load_hz_range_config_from_files
      [Source.ok (some [TopicEntry.mk (some "/a") (some [YVal.str "a", YVal.str "b"]),
                        TopicEntry.mk (some "/b") (some [YVal.num 1, YVal.num 2])])]).warnings
      = [LoadWarning.invalidHzRange "/a" [YVal.str "a", YVal.str "b"]] := by decide

example :
    let st := load_hz_range_config_from_files
      [Source.ok (some [TopicEntry.mk (some "/odom") (some [YVal.num 10, YVal.num 30])])]
    checkOne st.exact_match_configs st.regex_configs
      (ObservedStat.mk "/odom" 0 (PyFloat.finite 20))
      = ValidationResult.mk "/odom" (PyFloat.finite 20) "[10.0, 30.0]" "OK"
          "Exact match: /odom" := by decide
end EvaluationChecks
